import Mathlib

/-!
Verification of the core of the `thr` traffic-shaping router.

The development shallowly embeds the two source files under scrutiny:

* `thr/http2redis/rules.py` — the rule engine (`Criteria`, `Actions`,
  `Rule`, `Rules`),
* `thr/redis2http/app.py` — the dispatch pipeline (`get_busy_workers`,
  `process_request`, `finalize_request`, `request_toro_handler`).

Python values relevant to the control flow (truthiness, the `is False` /
`is None` identity tests, futures) are modelled by the inductive `PyVal`;
exceptions are modelled by `Except PyError`.  Stateful Redis interaction is
modelled by explicit state passing over `RedisState`.

Parts of the repository that the two files import but that are not part of
the sources under verification (`thr/utils.py`, `thr/redis2http/limits.py`,
`thr/http2redis/exchange.py`) are modelled from the specification; each such
definition carries a doc comment starting with `Modelled from the spec:`.
-/

/-- A Python runtime value, as far as the embedded control flow inspects it:
`None`, booleans, integers, strings, and tornado futures (`done` tells
whether the future has already completed; `result` is the value it carries
once resolved). -/
inductive PyVal where
  | none
  | bool (b : Bool)
  | int (n : Int)
  | str (s : String)
  | future (done : Bool) (result : PyVal)
deriving DecidableEq, Repr

/-- A Python exception, as far as the embedded code distinguishes them:
a generic `Exception(msg)`, a `TypeError`, or a `KeyError` on a given key. -/
inductive PyError where
  | exn (msg : String)
  | typeError (msg : String)
  | keyError (key : String)
deriving DecidableEq, Repr

/-- Python truthiness of a `PyVal` (`bool(v)`): `None`, `False`, `0` and the
empty string are falsy; futures are always truthy. -/
def PyVal.truthy : PyVal → Bool
  | .none => false
  | .bool b => b
  | .int n => n != 0
  | .str s => !s.isEmpty
  | .future _ _ => true

/-- The Python test `v is False`: only the boolean singleton `False` passes;
in particular `0`, `""`, `None` and futures do not. -/
def isLiteralFalse : PyVal → Bool
  | .bool false => true
  | _ => false

/-! ## The exchange data model (http2redis side)

`thr/http2redis/exchange.py` is not under `src/`; the exchange is modelled
from the spec. -/

/-- The names of the recognised actions.  Modelled from the spec: the action
catalog is built in `Actions.__init__` from the `set_`/`add_`/`del_` methods
of `HTTPExchange` (whose module is not under `src/`), listed in `dir()`
(alphabetical) order, with `custom_input` and `custom_output` appended. -/
inductive ActionName where
  | set_input_header
  | set_output_header
  | set_redis_queue
  | set_status_code
  | custom_input
  | custom_output
deriving DecidableEq, Repr

/-- The Python identifier of each recognised action name. -/
def actionNameStr : ActionName → String
  | .set_input_header => "set_input_header"
  | .set_output_header => "set_output_header"
  | .set_redis_queue => "set_redis_queue"
  | .set_status_code => "set_status_code"
  | .custom_input => "custom_input"
  | .custom_output => "custom_output"

/-- Modelled from the spec: the inspectable exchange attributes for which
`HTTPExchange` has a `get_` method (the `Criteria` docstring lists `path`,
`method` and `remote_ip`). -/
inductive CriterionName where
  | path
  | method
  | remote_ip
deriving DecidableEq, Repr

/-- Modelled from the spec: the in-memory request/response exchange of the
http2redis side.  The attribute getters used by criteria are the fields
`path`, `method` and `remote_ip`; the setter catalog used by actions is
modelled abstractly by the `writes` log, which records every mutation applied
through a recognised setter (the `matched_rules` slot is passed separately to
`Rules._execute`, see below). -/
structure HTTPExchange where
  path : String
  method : String
  remote_ip : String
  writes : List (ActionName × PyVal)
deriving DecidableEq, Repr

/-- The getter `getattr(exchange, "get_%s" % name)()` of the exchange. -/
def getAttr (e : HTTPExchange) : CriterionName → String
  | .path => e.path
  | .method => e.method
  | .remote_ip => e.remote_ip

/-- Modelled from the spec: a recognised setter `getattr(exchange, name)`
(the setter methods live in the missing `exchange.py`); the mutation is
modelled as appending the written value to the exchange's write log. -/
def applySetter (an : ActionName) (v : PyVal) (e : HTTPExchange) : HTTPExchange :=
  { e with writes := e.writes ++ [(an, v)] }

/-! ## Criteria (`thr/http2redis/rules.py`) -/

/-- A single criterion value: either a plain value compared by `==`, or a
pattern matcher.  Modelled from the spec for the pattern case: the `glob`
and `regexp` wrappers live in `thr/utils.py` (not under `src/`); per the
spec they test the attribute value against a pattern, yielding a boolean,
so both are carried as boolean predicates. -/
inductive CriterionValue where
  | lit (s : String)
  | pattern (matchesVal : String → Bool)

/-- `Criteria.eval_single_criterion_value`: pattern objects are applied via
their `match` method, anything else is compared with `==`. -/
def eval_single_criterion_value (criterion : CriterionValue) (value : String) : Bool :=
  match criterion with
  | .pattern m => m value
  | .lit s => value == s

/-- A configured criterion for one attribute: either a single value or a
list/tuple of values (OR semantics). -/
inductive Criterion where
  | single (c : CriterionValue)
  | many (cs : List CriterionValue)

/-- `Criteria.check_exchange_attribute`: fetch the attribute value through
its getter; a list or tuple criterion holds if any element matches, a single
criterion is evaluated directly. -/
def check_exchange_attribute (e : HTTPExchange) (name : CriterionName)
    (criterion : Criterion) : Bool :=
  let value := getAttr e name
  match criterion with
  | .many l => l.any (fun x => eval_single_criterion_value x value)
  | .single c => eval_single_criterion_value c value

/-- The value stored under the reserved `custom` key: a callable predicate
on the exchange, or any non-callable value. -/
inductive CustomValue where
  | callable (f : HTTPExchange → PyVal)
  | value (v : PyVal)

/-- One entry of the criteria dictionary: an attribute criterion, or the
reserved `custom` entry. -/
inductive CriteriaEntry where
  | attr (name : CriterionName) (criterion : Criterion)
  | custom (cv : CustomValue)

/-- The criteria dictionary, in insertion (iteration) order. -/
abbrev Criteria := List CriteriaEntry

/-- `Criteria.match`: iterate over the criteria; a non-custom criterion
fails the match only when `check_exchange_attribute` returns the literal
`False`; the `custom` entry must be callable (otherwise
`Exception("custom criteria must be callable")` is raised) and fails the
match only when its result `is False`.  (Named `matches` because `match` is
a Lean keyword.) -/
def Criteria.matches : Criteria → HTTPExchange → Except PyError Bool
  | [], _ => .ok true
  | .attr name criterion :: rest, e =>
    let tmp := check_exchange_attribute e name criterion
    if tmp = false then .ok false else Criteria.matches rest e
  | .custom cv :: rest, e =>
    match cv with
    | .value _ => .error (PyError.exn "custom criteria must be callable")
    | .callable f =>
      let tmp := f e
      if isLiteralFalse tmp then .ok false else Criteria.matches rest e

/-! ## Actions (`thr/http2redis/rules.py`) -/

/-- The value supplied for an action: a plain value, or a callable invoked
with the exchange (it may mutate the exchange and returns a value, possibly
a future). -/
inductive ActionVal where
  | py (v : PyVal)
  | callable (f : HTTPExchange → HTTPExchange × PyVal)

/-- Python truthiness of an action value: callables are truthy, plain values
use `PyVal.truthy`. -/
def ActionVal.truthy : ActionVal → Bool
  | .callable _ => true
  | .py v => v.truthy

/-- The Python identity test `action is None` on an action value. -/
def ActionVal.isNoneVal : ActionVal → Bool
  | .py PyVal.none => true
  | _ => false

/-- The `Actions` object: the stored keyword arguments.  `actions an = none`
means the key is absent from the dictionary. -/
structure Actions where
  actions : ActionName → Option ActionVal

/-- `self.actions.get(action_name)`: Python's `dict.get` yields `None` for
an absent key, so an absent key and an explicit `None` value coincide. -/
def pyGet (acts : Actions) (an : ActionName) : ActionVal :=
  (acts.actions an).getD (.py .none)

/-- The test "ends with this suffix" on strings, as character lists
(`str.endswith(suffix)`). -/
def charsEndWith (suffix s : List Char) : Bool := suffix.isSuffixOf s

/-- The test "contains this substring" on strings, as character lists
(Python's `sub in s`). -/
def charsContain (pat s : List Char) : Bool := s.tails.any (fun t => pat.isPrefixOf t)

/-- `Actions.is_output_action_name`: an action name is an output action iff
it ends with `_output` or contains `_output_`. -/
def is_output_action_name (an : ActionName) : Bool :=
  charsEndWith "_output".data (actionNameStr an).data
    || charsContain "_output_".data (actionNameStr an).data

/-- `Actions.is_custom_action_name`: the name starts with `custom_`. -/
def is_custom_action_name (an : ActionName) : Bool :=
  "custom_".data.isPrefixOf (actionNameStr an).data

/-- `self.action_names`: the recognised catalog, `dir()` (alphabetical)
order with the two custom pseudo-actions appended. -/
def action_names : List ActionName :=
  [.set_input_header, .set_output_header, .set_redis_queue, .set_status_code,
   .custom_input, .custom_output]

/-- `self.output_action_names`: the catalog entries classified as output. -/
def output_action_names : List ActionName :=
  action_names.filter is_output_action_name

/-- `self.input_action_names`: all other catalog entries. -/
def input_action_names : List ActionName :=
  action_names.filter (fun an => !(is_output_action_name an))

/-- The execution phase: the `mode` argument of `Actions._execute`.  (The
source raises on any other string; the inductive carries exactly the two
legal values, so that branch is unreachable.) -/
inductive Mode where
  | input
  | output
deriving DecidableEq, Repr

/-- The action-name list walked by `Actions._execute` for a mode. -/
def action_names_for : Mode → List ActionName
  | .output => output_action_names
  | .input => input_action_names

/-- The custom pseudo-action belonging to a phase. -/
def custom_name_for : Mode → ActionName
  | .input => .custom_input
  | .output => .custom_output

/-- A Python dictionary keyed by action names (the `result_dict` and
`futures` dictionaries of `Actions._execute`). -/
abbrev PyDict := ActionName → Option PyVal

/-- Dictionary assignment `d[k] = v`. -/
def dictInsert (d : PyDict) (k : ActionName) (v : PyVal) : PyDict :=
  fun x => if x = k then some v else d x

/-- The merge `for key, value in futures_result_dict.items():
result_dict[key] = value`: entries of the futures dictionary override. -/
def dictMerge (rd futs : PyDict) : PyDict :=
  fun x => match futs x with
    | some v => some v
    | Option.none => rd x

/-- The first loop of `Actions._execute`: resolve every action value.  A
falsy value is skipped; a callable is invoked, and its result goes into
`result_dict` (immediately, or via `value.result()` if it is a completed
future) or into `futures` (pending future); a truthy non-callable value of a
`custom_` pseudo-action raises; any other truthy non-callable value goes
into `result_dict` as-is. -/
def resolveLoop (acts : Actions) : List ActionName → HTTPExchange → PyDict → PyDict →
    Except PyError (HTTPExchange × PyDict × PyDict)
  | [], e, rd, futs => .ok (e, rd, futs)
  | an :: rest, e, rd, futs =>
    let action := pyGet acts an
    if action.truthy = false then
      resolveLoop acts rest e rd futs
    else
      match action with
      | .callable f =>
        match f e with
        | (e', PyVal.future done r) =>
          if done then resolveLoop acts rest e' (dictInsert rd an r) futs
          else resolveLoop acts rest e' rd (dictInsert futs an r)
        | (e', v) => resolveLoop acts rest e' (dictInsert rd an v) futs
      | .py v =>
        if is_custom_action_name an then
          .error (PyError.exn "custom_ actions must be callable")
        else
          resolveLoop acts rest e (dictInsert rd an v) futs

/-- The second loop of `Actions._execute`: apply the mutations.  A `None`
action (absent key included) is skipped; a `custom_` action is skipped (the
exchange was already mutated by the callable); otherwise the action name is
looked up in `result_dict` — a missing key raises `KeyError` — and the
setter is invoked unless the resolved value is `None`. -/
def mutateLoop (acts : Actions) : List ActionName → PyDict → HTTPExchange →
    Except PyError HTTPExchange
  | [], _, e => .ok e
  | an :: rest, rd, e =>
    let action := pyGet acts an
    if action.isNoneVal then mutateLoop acts rest rd e
    else if is_custom_action_name an then mutateLoop acts rest rd e
    else
      match rd an with
      | Option.none => .error (PyError.keyError (actionNameStr an))
      | some v =>
        if v = PyVal.none then mutateLoop acts rest rd e
        else mutateLoop acts rest rd (applySetter an v e)

/-- `Actions._execute(exchange, mode)`: resolve all values for the phase
(awaiting outstanding futures), then apply the mutations in catalog order. -/
def Actions._execute (acts : Actions) (mode : Mode) (e : HTTPExchange) :
    Except PyError HTTPExchange :=
  match resolveLoop acts (action_names_for mode) e (fun _ => Option.none)
      (fun _ => Option.none) with
  | .error err => .error err
  | .ok (e', rd, futs) => mutateLoop acts (action_names_for mode) (dictMerge rd futs) e'

/-- `Actions.__init__`: stores the supplied keyword arguments unvalidated
and computes the action-name partition; the constructor body contains no
`raise`, so construction always succeeds. -/
def Actions.init (kwargs : ActionName → Option ActionVal) : Except PyError Actions :=
  .ok ⟨kwargs⟩

/-! ## Rule and Rules (`thr/http2redis/rules.py`) -/

/-- A registered rule. -/
structure Rule where
  criteria : Criteria
  actions : Actions
  stop : Bool

/-- `Rule.__init__(criteria, actions, **kwargs)`:
`self.stop = kwargs.get('stop', False)`. -/
def Rule.init (criteria : Criteria) (actions : Actions) (stopKw : Option Bool) : Rule :=
  ⟨criteria, actions, stopKw.getD false⟩

/-- The loop of `Rules._execute`: when `test` is true the rule's criteria
are evaluated, otherwise the match is forced to `True`; a matching rule's
actions are executed for the phase and the rule is appended to the matched
list; a matching rule with `stop` terminates the loop. -/
def execLoop (mode : Mode) (test : Bool) :
    List Rule → HTTPExchange → List Rule → Except PyError (HTTPExchange × List Rule)
  | [], e, acc => .ok (e, acc)
  | r :: rest, e, acc =>
    match (if test then Criteria.matches r.criteria e else .ok true) with
    | .error err => .error err
    | .ok m =>
      if m then
        match Actions._execute r.actions mode e with
        | .error err => .error err
        | .ok e' =>
          if r.stop then .ok (e', acc ++ [r])
          else execLoop mode test rest e' (acc ++ [r])
      else execLoop mode test rest e acc

/-- `Rules._execute(exchange, mode)`: if the exchange already carries a
captured `matched_rules` list, iterate over it with criteria evaluation
disabled; otherwise iterate over the registered ruleset with criteria
evaluation enabled.  The exchange's `matched_rules` slot is modelled as an
explicit argument, and the pair returned is the mutated exchange together
with the `matched_rules` list stored back at the end. -/
def Rules._execute (rules : List Rule) (mode : Mode) (e : HTTPExchange)
    (matched_rules : Option (List Rule)) : Except PyError (HTTPExchange × List Rule) :=
  match matched_rules with
  | some captured => execLoop mode false captured e []
  | Option.none => execLoop mode true rules e []

/-! ## The redis2http dispatch side (`thr/redis2http/app.py`) -/

/-- The shared Redis store: integer counters (a key absent from the store
holds `Option.none`, which `GET` reports as nil) and the named lists used as
queues (`LPUSH` prepends; `BRPOP` pops from the other end). -/
structure RedisState where
  counters : String → Option Int
  lists : String → List String

/-- `INCR k`: an absent counter counts as `0`. -/
def incrKey (s : RedisState) (k : String) : RedisState :=
  { s with counters := fun q => if q = k then some ((s.counters k).getD 0 + 1) else s.counters q }

/-- `DECR k`: an absent counter counts as `0`. -/
def decrKey (s : RedisState) (k : String) : RedisState :=
  { s with counters := fun q => if q = k then some ((s.counters k).getD 0 - 1) else s.counters q }

/-- A pipeline stacking one `INCR` per hash key. -/
def incrAll (hashes : List String) (s : RedisState) : RedisState :=
  hashes.foldl incrKey s

/-- A pipeline stacking one `DECR` per hash key. -/
def decrAll (hashes : List String) (s : RedisState) : RedisState :=
  hashes.foldl decrKey s

/-- `LPUSH k v`. -/
def lpush (k v : String) (s : RedisState) : RedisState :=
  { s with lists := fun q => if q = k then v :: s.lists k else s.lists q }

/-- The integer value a counter key currently represents for the `INCR` /
`DECR` arithmetic (an absent key counts as `0`). -/
def counterVal (k : String) (s : RedisState) : Int :=
  (s.counters k).getD 0

/-- An HTTP request as the dispatch side handles it. -/
structure HTTPRequest where
  method : String
  url : String
  body : Option String
deriving DecidableEq, Repr

/-- An HTTP response as the dispatch side handles it. -/
structure HTTPResponse where
  code : Nat
  body : String
deriving DecidableEq, Repr

/-- `get_busy_workers(hash)`: `GET` the counter and convert with `int(...)`.
A nil reply makes `int(None)` raise `TypeError`; an existing integer value
is returned. -/
def get_busy_workers (s : RedisState) (hkey : String) : Except PyError Int :=
  match s.counters hkey with
  | Option.none => .error (PyError.typeError "int() argument cannot be None")
  | some n => .ok n

/-- `process_request(request, hashes, body_link)`: the body fetch (if any)
is started before the counters are touched but only awaited afterwards, so
the `INCR` pipeline runs for a non-empty hash list regardless of the fetch
outcome; a body-fetch failure then surfaces at `request.body = yield body`
before the backend is called; otherwise the backend fetch's outcome is the
returned outcome.  `bodyFetch` and `fetch` model the
`AsyncHTTPClient.fetch` capability. -/
def process_request (bodyFetch : String → Except PyError String)
    (fetch : HTTPRequest → Except PyError HTTPResponse)
    (request : HTTPRequest) (hashes : List String) (body_link : Option String)
    (s : RedisState) : RedisState × Except PyError HTTPResponse :=
  let s1 := if hashes.isEmpty then s else incrAll hashes s
  match body_link with
  | Option.none => (s1, fetch request)
  | some link =>
    match bodyFetch link with
    | .error err => (s1, .error err)
    | .ok b => (s1, fetch { request with body := some b })

/-- `finalize_request(response_key, hashes, response)`: `DECR` every hash
key (for a non-empty hash list), then serialize `response.result()` and
`LPUSH` it onto the response key.  When the awaited future failed,
`response.result()` re-raises the stored exception, so the push never
happens and the error propagates; the decrements have already run. -/
def finalize_request (serialize_http_response : HTTPResponse → String)
    (response_key : String) (hashes : List String)
    (response : Except PyError HTTPResponse) (s : RedisState) :
    RedisState × Except PyError Unit :=
  let s1 := if hashes.isEmpty then s else decrAll hashes s
  match response with
  | .error err => (s1, .error err)
  | .ok resp => (lpush response_key (serialize_http_response resp) s1, .ok ())

/-- `request_toro_handler` on one entry popped from the local toro queue:
unserialize the message, ask `Limits.check` for the hash keys; a `None`
answer requeues the still-serialized message onto its origin queue and stops
there; otherwise `process_request` runs and `finalize_request` is attached
as its completion callback, keyed by `extra_dict["response_key"]`.

`check` models `Limits.check` (Modelled from the spec:
`thr/redis2http/limits.py` is not under `src/`; per the spec it computes the
applicable limit keys from the request, reading the shared counters, and
reports `None` when admission is denied).  `unserialize_request_message`
models the wire codec of `thr/utils.py` (also not under `src/`): it decodes
a serialized message into the request, the optional body link, and the
injected metadata dictionary. -/
def request_toro_handler
    (check : HTTPRequest → RedisState → Option (List String))
    (unserialize_request_message :
      String → HTTPRequest × Option String × (String → Option String))
    (serialize_http_response : HTTPResponse → String)
    (bodyFetch : String → Except PyError String)
    (fetch : HTTPRequest → Except PyError HTTPResponse)
    (origin_queue serialized_request : String)
    (s : RedisState) : RedisState × Except PyError Unit :=
  let decoded := unserialize_request_message serialized_request
  let request := decoded.1
  let body_link := decoded.2.1
  let extra_dict := decoded.2.2
  match check request s with
  | Option.none => (lpush origin_queue serialized_request s, .ok ())
  | some hashes =>
    let processed := process_request bodyFetch fetch request hashes body_link s
    match extra_dict "response_key" with
    | Option.none => (processed.1, .error (PyError.keyError "response_key"))
    | some response_key =>
      finalize_request serialize_http_response response_key hashes processed.2 processed.1

/-! ## Helper lemmas about the Redis state -/

lemma counterVal_incrKey (s : RedisState) (h k : String) :
    counterVal k (incrKey s h) = counterVal k s + (if k = h then 1 else 0) := by
  by_cases hk : k = h <;> simp [counterVal, incrKey, hk]

lemma counterVal_decrKey (s : RedisState) (h k : String) :
    counterVal k (decrKey s h) = counterVal k s - (if k = h then 1 else 0) := by
  by_cases hk : k = h <;> simp [counterVal, decrKey, hk]

lemma counterVal_incrAll (hashes : List String) (s : RedisState) (k : String) :
    counterVal k (incrAll hashes s) = counterVal k s + (hashes.count k : Int) := by
  induction hashes generalizing s with
  | nil => simp [incrAll]
  | cons h t ih =>
    have hstep : incrAll (h :: t) s = incrAll t (incrKey s h) := rfl
    rw [hstep, ih, counterVal_incrKey]
    by_cases hk : k = h
    · subst hk; simp [List.count_cons]; ring
    · have : ¬(h == k) = true := by simpa [beq_iff_eq] using fun hh => hk hh.symm
      simp [List.count_cons, this, hk]

lemma counterVal_decrAll (hashes : List String) (s : RedisState) (k : String) :
    counterVal k (decrAll hashes s) = counterVal k s - (hashes.count k : Int) := by
  induction hashes generalizing s with
  | nil => simp [decrAll]
  | cons h t ih =>
    have hstep : decrAll (h :: t) s = decrAll t (decrKey s h) := rfl
    rw [hstep, ih, counterVal_decrKey]
    by_cases hk : k = h
    · subst hk; simp [List.count_cons]; ring
    · have : ¬(h == k) = true := by simpa [beq_iff_eq] using fun hh => hk hh.symm
      simp [List.count_cons, this, hk]

lemma lists_incrAll (hashes : List String) (s : RedisState) :
    (incrAll hashes s).lists = s.lists := by
  induction hashes generalizing s with
  | nil => rfl
  | cons h t ih => exact ih (incrKey s h)

lemma lists_decrAll (hashes : List String) (s : RedisState) :
    (decrAll hashes s).lists = s.lists := by
  induction hashes generalizing s with
  | nil => rfl
  | cons h t ih => exact ih (decrKey s h)

lemma counterVal_lpush (q v : String) (s : RedisState) (k : String) :
    counterVal k (lpush q v s) = counterVal k s := rfl

lemma if_isEmpty_incrAll (hashes : List String) (s : RedisState) :
    (if hashes.isEmpty then s else incrAll hashes s) = incrAll hashes s := by
  cases hashes <;> simp [incrAll]

lemma if_isEmpty_decrAll (hashes : List String) (s : RedisState) :
    (if hashes.isEmpty then s else decrAll hashes s) = decrAll hashes s := by
  cases hashes <;> simp [decrAll]

lemma process_request_fst (bodyFetch : String → Except PyError String)
    (fetch : HTTPRequest → Except PyError HTTPResponse)
    (request : HTTPRequest) (hashes : List String) (body_link : Option String)
    (s : RedisState) :
    (process_request bodyFetch fetch request hashes body_link s).fst
      = incrAll hashes s := by
  unfold process_request
  cases body_link with
  | none => simp [if_isEmpty_incrAll]; rintro rfl; rfl
  | some link =>
    cases h : bodyFetch link <;> simp [h, if_isEmpty_incrAll] <;> (rintro rfl; rfl)

lemma finalize_request_counters (ser : HTTPResponse → String)
    (rk : String) (hashes : List String) (resp : Except PyError HTTPResponse)
    (s : RedisState) (k : String) :
    counterVal k ((finalize_request ser rk hashes resp s).fst)
      = counterVal k s - (hashes.count k : Int) := by
  unfold finalize_request
  rw [show (if hashes.isEmpty then s else decrAll hashes s) = decrAll hashes s from
    if_isEmpty_decrAll hashes s]
  cases resp with
  | error err => simpa using counterVal_decrAll hashes s k
  | ok r =>
    simp only []
    rw [counterVal_lpush]
    exact counterVal_decrAll hashes s k

lemma request_toro_handler_admitted
    (check : HTTPRequest → RedisState → Option (List String))
    (u : String → HTTPRequest × Option String × (String → Option String))
    (ser : HTTPResponse → String)
    (bf : String → Except PyError String)
    (be : HTTPRequest → Except PyError HTTPResponse)
    (origin serialized : String) (s : RedisState)
    (request : HTTPRequest) (bl : Option String) (ed : String → Option String)
    (hashes : List String) (rk : String)
    (hu : u serialized = (request, bl, ed))
    (hchk : check request s = some hashes)
    (hrk : ed "response_key" = some rk) :
    request_toro_handler check u ser bf be origin serialized s
      = finalize_request ser rk hashes
          (process_request bf be request hashes bl s).2
          (process_request bf be request hashes bl s).1 := by
  simp only [request_toro_handler, hu, hchk, hrk]

/-! ## Claims about the dispatch pipeline -/

/-- Claim C1: for every admitted request (`Limits.check` returned a hash-key
list) whose counters were incremented, processing decrements each hash key
exactly once — for any outcome of the body fetch and the backend fetch — so
that after `finalize_request` runs every counter is back at its
pre-admission value; right after `process_request`'s increment step each
counter sits at its pre-admission value plus its multiplicity in the hash
list. -/
theorem C1_counter_conservation
    (check : HTTPRequest → RedisState → Option (List String))
    (u : String → HTTPRequest × Option String × (String → Option String))
    (ser : HTTPResponse → String)
    (bf : String → Except PyError String)
    (be : HTTPRequest → Except PyError HTTPResponse)
    (origin serialized : String) (s : RedisState)
    (request : HTTPRequest) (bl : Option String) (ed : String → Option String)
    (hashes : List String) (rk k : String)
    (hu : u serialized = (request, bl, ed))
    (hchk : check request s = some hashes)
    (hrk : ed "response_key" = some rk) :
    counterVal k ((request_toro_handler check u ser bf be origin serialized s).fst)
      = counterVal k s
    ∧ counterVal k ((process_request bf be request hashes bl s).fst)
      = counterVal k s + (hashes.count k : Int) := by
  have hred := request_toro_handler_admitted check u ser bf be origin serialized s
      request bl ed hashes rk hu hchk hrk
  constructor
  · rw [hred, finalize_request_counters, process_request_fst, counterVal_incrAll]
    ring
  · rw [process_request_fst, counterVal_incrAll]

def req0 : HTTPRequest := ⟨"GET", "/foo", Option.none⟩

def s0 : RedisState := ⟨fun _ => Option.none, fun _ => []⟩

def ser0 : HTTPResponse → String := fun _ => "SERIALIZED"

def bf0 : String → Except PyError String := fun _ => .ok "BODY"

def be_ok : HTTPRequest → Except PyError HTTPResponse := fun _ => .ok ⟨200, "bar"⟩

def be_err : HTTPRequest → Except PyError HTTPResponse :=
  fun _ => .error (PyError.exn "ConnectionError")

def ed0 : String → Option String :=
  fun key => if key = "response_key" then some "rk" else Option.none

def unser0 : String → HTTPRequest × Option String × (String → Option String) :=
  fun _ => (req0, Option.none, ed0)

def check_adm : HTTPRequest → RedisState → Option (List String) :=
  fun _ _ => some ["h1", "h2"]

def check_deny : HTTPRequest → RedisState → Option (List String) :=
  fun _ _ => Option.none

theorem C1_counter_conservation_witness :
    counterVal "h1" ((request_toro_handler check_adm unser0 ser0 bf0 be_ok "q0" "msg" s0).fst)
      = counterVal "h1" s0
    ∧ counterVal "h1" ((process_request bf0 be_ok req0 ["h1", "h2"] Option.none s0).fst)
      = counterVal "h1" s0 + ((["h1", "h2"].count "h1" : Nat) : Int) :=
  C1_counter_conservation check_adm unser0 ser0 bf0 be_ok "q0" "msg" s0 req0
    Option.none ed0 ["h1", "h2"] "rk" "h1" rfl rfl (by decide)

/-- Claim C2 counterexample: an admitted request whose backend fetch raises
`ConnectionError`.  Contrary to the claim, nothing is ever pushed to the
response correlation key `"rk"` (its list stays empty) and the exception
propagates out of `finalize_request` instead of being converted into a
synthesized error response. -/
theorem C2_counterexample :
    ((request_toro_handler check_adm unser0 ser0 bf0 be_err "q0" "msg" s0).fst.lists "rk" = [])
    ∧ (request_toro_handler check_adm unser0 ser0 bf0 be_err "q0" "msg" s0).snd
      = .error (PyError.exn "ConnectionError") := by
  constructor <;> rfl

/-- Claim C2 amended: for every admitted request whose backend call fails,
`finalize_request` still decrements the counters, but `response.result()`
re-raises the stored exception before anything is serialized, so no entry is
pushed to the response correlation key (no list in the store changes at all)
and the error propagates out of the handler; the waiting caller receives no
response through the publish path. -/
theorem C2_amended_failure_no_publish
    (check : HTTPRequest → RedisState → Option (List String))
    (u : String → HTTPRequest × Option String × (String → Option String))
    (ser : HTTPResponse → String)
    (bf : String → Except PyError String)
    (be : HTTPRequest → Except PyError HTTPResponse)
    (origin serialized : String) (s : RedisState)
    (request : HTTPRequest) (bl : Option String) (ed : String → Option String)
    (hashes : List String) (rk k q : String) (err : PyError)
    (hu : u serialized = (request, bl, ed))
    (hchk : check request s = some hashes)
    (hrk : ed "response_key" = some rk)
    (herr : (process_request bf be request hashes bl s).snd = .error err) :
    (request_toro_handler check u ser bf be origin serialized s).snd = .error err
    ∧ (request_toro_handler check u ser bf be origin serialized s).fst.lists q
      = s.lists q
    ∧ counterVal k ((request_toro_handler check u ser bf be origin serialized s).fst)
      = counterVal k s := by
  have hred := request_toro_handler_admitted check u ser bf be origin serialized s
      request bl ed hashes rk hu hchk hrk
  refine ⟨?_, ?_, ?_⟩
  · rw [hred]
    simp [finalize_request, herr]
  · rw [hred]
    simp only [finalize_request, herr, process_request_fst]
    split <;> simp [lists_decrAll, lists_incrAll]
  · rw [hred, finalize_request_counters, process_request_fst, counterVal_incrAll]
    ring

theorem C2_amended_failure_no_publish_witness :
    (request_toro_handler check_adm unser0 ser0 bf0 be_err "q0" "msg" s0).snd
      = .error (PyError.exn "ConnectionError")
    ∧ (request_toro_handler check_adm unser0 ser0 bf0 be_err "q0" "msg" s0).fst.lists "rk"
      = s0.lists "rk"
    ∧ counterVal "h1" ((request_toro_handler check_adm unser0 ser0 bf0 be_err "q0" "msg" s0).fst)
      = counterVal "h1" s0 :=
  C2_amended_failure_no_publish check_adm unser0 ser0 bf0 be_err "q0" "msg" s0 req0
    Option.none ed0 ["h1", "h2"] "rk" "h1" "rk" (PyError.exn "ConnectionError")
    rfl rfl (by decide) rfl

/-- Claim C3: for every intaken entry denied admission (`Limits.check`
returns `None`), `request_toro_handler` pushes the original serialized bytes
unchanged onto the origin queue, mutates no counter and no other list, and
performs no backend call (the outcome is independent of the body-fetch and
backend capabilities). -/
theorem C3_denied_requeue
    (check : HTTPRequest → RedisState → Option (List String))
    (u : String → HTTPRequest × Option String × (String → Option String))
    (ser : HTTPResponse → String)
    (bf bf' : String → Except PyError String)
    (be be' : HTTPRequest → Except PyError HTTPResponse)
    (origin serialized : String) (s : RedisState)
    (request : HTTPRequest) (bl : Option String) (ed : String → Option String)
    (k q : String)
    (hu : u serialized = (request, bl, ed))
    (hchk : check request s = Option.none)
    (hq : q ≠ origin) :
    (request_toro_handler check u ser bf be origin serialized s).fst.lists origin
      = serialized :: s.lists origin
    ∧ (request_toro_handler check u ser bf be origin serialized s).fst.counters k
      = s.counters k
    ∧ (request_toro_handler check u ser bf be origin serialized s).fst.lists q
      = s.lists q
    ∧ request_toro_handler check u ser bf be origin serialized s
      = request_toro_handler check u ser bf' be' origin serialized s
    ∧ (request_toro_handler check u ser bf be origin serialized s).snd = .ok () := by
  have hred : ∀ (bf2 : String → Except PyError String)
      (be2 : HTTPRequest → Except PyError HTTPResponse),
      request_toro_handler check u ser bf2 be2 origin serialized s
        = (lpush origin serialized s, .ok ()) := by
    intro bf2 be2
    simp only [request_toro_handler, hu, hchk]
  refine ⟨?_, ?_, ?_, ?_, ?_⟩ <;> simp [hred, lpush, hq]

theorem C3_denied_requeue_witness :
    (request_toro_handler check_deny unser0 ser0 bf0 be_ok "q0" "msg" s0).fst.lists "q0"
      = "msg" :: s0.lists "q0"
    ∧ (request_toro_handler check_deny unser0 ser0 bf0 be_ok "q0" "msg" s0).fst.counters "h1"
      = s0.counters "h1"
    ∧ (request_toro_handler check_deny unser0 ser0 bf0 be_ok "q0" "msg" s0).fst.lists "other"
      = s0.lists "other"
    ∧ request_toro_handler check_deny unser0 ser0 bf0 be_ok "q0" "msg" s0
      = request_toro_handler check_deny unser0 ser0 bf0 be_err "q0" "msg" s0
    ∧ (request_toro_handler check_deny unser0 ser0 bf0 be_ok "q0" "msg" s0).snd = .ok () :=
  C3_denied_requeue check_deny unser0 ser0 bf0 bf0 be_ok be_err "q0" "msg" s0 req0
    Option.none ed0 "h1" "other" rfl rfl (by decide)

/-- Claim C9: `get_busy_workers` applies `int(...)` to the raw `GET` reply,
so a counter key with no stored value makes it raise `TypeError` rather than
return `0`, while an existing integer value is returned as-is. -/
theorem C9_get_busy_workers (s : RedisState) (k1 k2 : String) (n : Int)
    (hmiss : s.counters k1 = Option.none) (hsome : s.counters k2 = some n) :
    get_busy_workers s k1 = .error (PyError.typeError "int() argument cannot be None")
    ∧ get_busy_workers s k2 = .ok n := by
  constructor <;> simp [get_busy_workers, hmiss, hsome]

def s9 : RedisState := ⟨fun k => if k = "busy" then some 3 else Option.none, fun _ => []⟩

theorem C9_get_busy_workers_witness :
    get_busy_workers s9 "absent" = .error (PyError.typeError "int() argument cannot be None")
    ∧ get_busy_workers s9 "busy" = .ok 3 :=
  C9_get_busy_workers s9 "absent" "busy" 3 (by decide) (by decide)

/-! ## Claims about Criteria -/

/-- The spec's reading of "one configured criterion holds" on an exchange:
an attribute criterion holds when the attribute check succeeds (with
OR-over-list built into `check_exchange_attribute`); a custom predicate
holds when it returns the boolean `True`. -/
def criterion_holds (e : HTTPExchange) : CriteriaEntry → Bool
  | .attr name criterion => check_exchange_attribute e name criterion
  | .custom (.callable f) => decide (f e = PyVal.bool true)
  | .custom (.value _) => false

/-- A criteria entry behaves as a synchronous boolean predicate on the
exchange `e`: attribute entries always do; a custom entry must be callable
and return an actual boolean on `e`. -/
def sync_bool_entry (e : HTTPExchange) : CriteriaEntry → Prop
  | .custom cv => ∃ f b, cv = CustomValue.callable f ∧ f e = PyVal.bool b
  | .attr _ _ => True

/-- Claim C4: when every configured predicate is synchronous (boolean
valued), `Criteria.match` returns exactly the conjunction of all configured
criterion checks — with OR-over-list inside one attribute via
`check_exchange_attribute` — and a `Criteria` with no entries matches every
exchange. -/
theorem C4_match_is_conjunction (cs : Criteria) (e e0 : HTTPExchange)
    (h : ∀ entry ∈ cs, sync_bool_entry e entry) :
    Criteria.matches cs e = .ok (cs.all (criterion_holds e))
    ∧ Criteria.matches ([] : Criteria) e0 = .ok true := by
  refine ⟨?_, rfl⟩
  induction cs with
  | nil => rfl
  | cons entry rest ih =>
    have hrest : ∀ x ∈ rest, sync_bool_entry e x :=
      fun x hx => h x (List.mem_cons_of_mem _ hx)
    have hent := h entry (List.mem_cons_self _ _)
    cases entry with
    | attr name criterion =>
      by_cases hc : check_exchange_attribute e name criterion
      · simp [Criteria.matches, criterion_holds, hc, ih hrest]
      · simp [Criteria.matches, criterion_holds, hc]
    | custom cv =>
      obtain ⟨f, b, rfl, hfb⟩ := hent
      cases b
      · simp [Criteria.matches, criterion_holds, hfb, isLiteralFalse]
      · simp [Criteria.matches, criterion_holds, hfb, isLiteralFalse, ih hrest]

def ex0 : HTTPExchange := ⟨"/foo", "GET", "127.0.0.1", []⟩

def crit_true : CriteriaEntry :=
  CriteriaEntry.custom (CustomValue.callable (fun _ => PyVal.bool true))

theorem C4_match_is_conjunction_witness :
    Criteria.matches [crit_true] ex0 = .ok ([crit_true].all (criterion_holds ex0))
    ∧ Criteria.matches ([] : Criteria) ex0 = .ok true :=
  C4_match_is_conjunction [crit_true] ex0 ex0 (by
    intro entry he
    rw [List.mem_singleton] at he
    subst he
    exact ⟨fun _ => PyVal.bool true, true, rfl, rfl⟩)

/-- Claim C10: `Criteria.match` fails a custom check only when its result is
the literal `False`; a custom callback returning `None`, `0`, the empty
string or a pending future is counted as satisfied, so `match` returns
`True` for such an exchange. -/
theorem C10_custom_non_false_satisfied (e : HTTPExchange) (v : PyVal)
    (h : isLiteralFalse v = false) :
    Criteria.matches [CriteriaEntry.custom (CustomValue.callable (fun _ => v))] e
      = .ok true
    ∧ isLiteralFalse PyVal.none = false
    ∧ isLiteralFalse (PyVal.int 0) = false
    ∧ isLiteralFalse (PyVal.str "") = false
    ∧ isLiteralFalse (PyVal.future false v) = false := by
  refine ⟨?_, rfl, rfl, rfl, rfl⟩
  simp [Criteria.matches, h]

theorem C10_custom_non_false_satisfied_witness :
    Criteria.matches [CriteriaEntry.custom (CustomValue.callable (fun _ => PyVal.none))] ex0
      = .ok true
    ∧ isLiteralFalse PyVal.none = false
    ∧ isLiteralFalse (PyVal.int 0) = false
    ∧ isLiteralFalse (PyVal.str "") = false
    ∧ isLiteralFalse (PyVal.future false PyVal.none) = false :=
  C10_custom_non_false_satisfied ex0 PyVal.none rfl

/-! ## Claims about rule iteration -/

lemma execLoop_cons (mode : Mode) (test : Bool) (r : Rule) (rest : List Rule)
    (e : HTTPExchange) (acc : List Rule) :
    execLoop mode test (r :: rest) e acc
      = match (if test then Criteria.matches r.criteria e else .ok true) with
        | .error err => .error err
        | .ok m =>
          if m then
            match Actions._execute r.actions mode e with
            | .error err => .error err
            | .ok e' =>
              if r.stop then .ok (e', acc ++ [r])
              else execLoop mode test rest e' (acc ++ [r])
          else execLoop mode test rest e acc := rfl

lemma execLoop_stop_tail_irrelevant (mode : Mode) (r : Rule)
    (hstop : r.stop = true)
    (hmatch : ∀ e', Criteria.matches r.criteria e' = .ok true) :
    ∀ (pre : List Rule) (post post' : List Rule) (e : HTTPExchange) (acc : List Rule),
    execLoop mode true (pre ++ r :: post) e acc
      = execLoop mode true (pre ++ r :: post') e acc := by
  intro pre
  induction pre with
  | nil =>
    intro post post' e acc
    rw [List.nil_append, List.nil_append, execLoop_cons, execLoop_cons]
    simp [hmatch e, hstop]
  | cons p pre' ih =>
    intro post post' e acc
    rw [List.cons_append, List.cons_append, execLoop_cons, execLoop_cons]
    cases hm : Criteria.matches p.criteria e with
    | error err => simp [hm]
    | ok b =>
      cases b with
      | false =>
        simp only [if_true, hm]
        exact ih post post' e acc
      | true =>
        cases ha : Actions._execute p.actions mode e with
        | error err => simp [hm, ha]
        | ok e'' =>
          by_cases hps : p.stop
          · simp [hm, ha, hps]
          · simp only [if_true, hm, ha, hps, Bool.false_eq_true, if_false]
            exact ih post post' e'' (acc ++ [p])

/-- Claim C5: on an exchange with no captured matched rules, rules are
evaluated in declaration order; `stop` defaults to `False` when not given
(`Rule.init`); a matching rule with `stop = True` makes every later rule
irrelevant (the run is the same for any tail after it); a matching rule
with `stop = False` continues the run into the remaining rules. -/
theorem C5_declaration_order_and_stop (c : Criteria) (a : Actions)
    (pre post post' rest : List Rule) (r s : Rule) (mode : Mode)
    (e e1 : HTTPExchange)
    (hstop : r.stop = true)
    (hmatch : ∀ e', Criteria.matches r.criteria e' = .ok true)
    (hs : s.stop = false)
    (hsm : Criteria.matches s.criteria e = .ok true)
    (hsa : Actions._execute s.actions mode e = .ok e1) :
    (Rule.init c a Option.none).stop = false
    ∧ Rules._execute (pre ++ r :: post) mode e Option.none
      = Rules._execute (pre ++ r :: post') mode e Option.none
    ∧ Rules._execute (s :: rest) mode e Option.none
      = execLoop mode true rest e1 [s] := by
  refine ⟨rfl, ?_, ?_⟩
  · exact execLoop_stop_tail_irrelevant mode r hstop hmatch pre post post' e []
  · show execLoop mode true (s :: rest) e [] = _
    rw [execLoop_cons]
    simp [hsm, hs, hsa]

def acts0 : Actions := ⟨fun _ => Option.none⟩

def rule_stop : Rule := ⟨[], acts0, true⟩

def rule_go : Rule := ⟨[], acts0, false⟩

def rule_other : Rule :=
  ⟨[CriteriaEntry.attr CriterionName.path (Criterion.single (CriterionValue.lit "/nope"))],
   acts0, false⟩

theorem C5_declaration_order_and_stop_witness :
    (Rule.init [] acts0 Option.none).stop = false
    ∧ Rules._execute ([] ++ rule_stop :: [rule_other]) Mode.input ex0 Option.none
      = Rules._execute ([] ++ rule_stop :: []) Mode.input ex0 Option.none
    ∧ Rules._execute (rule_go :: []) Mode.input ex0 Option.none
      = execLoop Mode.input true [] ex0 [rule_go] :=
  C5_declaration_order_and_stop [] acts0 [] [rule_other] [] [] rule_stop rule_go
    Mode.input ex0 ex0 rfl (fun _ => rfl) rfl rfl rfl

/-- The spec's description of the output pass: apply each captured rule's
actions for the phase, in capture order, with no criteria evaluation. -/
def apply_matched (mode : Mode) : List Rule → HTTPExchange → Except PyError HTTPExchange
  | [], e => .ok e
  | r :: rest, e =>
    match Actions._execute r.actions mode e with
    | .error err => .error err
    | .ok e' => apply_matched mode rest e'

lemma execLoop_notest_apply_matched (mode : Mode) :
    ∀ (captured : List Rule) (e : HTTPExchange) (acc : List Rule),
    (∀ x ∈ captured.dropLast, x.stop = false) →
    execLoop mode false captured e acc
      = (apply_matched mode captured e).map (fun e' => (e', acc ++ captured)) := by
  intro captured
  induction captured with
  | nil =>
    intro e acc h
    simp [execLoop, apply_matched, Except.map]
  | cons r rest ih =>
    intro e acc h
    rw [execLoop_cons]
    cases ha : Actions._execute r.actions mode e with
    | error err => simp [ha, apply_matched, Except.map]
    | ok e'' =>
      cases rest with
      | nil =>
        by_cases hrs : r.stop
        · simp [ha, hrs, apply_matched, Except.map, execLoop]
        · simp [ha, hrs, apply_matched, Except.map, execLoop]
      | cons s rest' =>
        have hr : r.stop = false := h r (List.mem_cons_self _ _)
        have h' : ∀ x ∈ (s :: rest').dropLast, x.stop = false :=
          fun x hx => h x (List.mem_cons_of_mem _ hx)
        rw [show apply_matched mode (r :: s :: rest') e
              = match Actions._execute r.actions mode e with
                | .error err => .error err
                | .ok e' => apply_matched mode (s :: rest') e' from rfl]
        simp only [ha, hr, Bool.false_eq_true, if_false, if_true]
        rw [ih e'' (acc ++ [r]) h']
        simp

lemma execLoop_notest_criteria_irrelevant (mode : Mode) (g : Rule → Rule)
    (hg : ∀ x, (g x).actions = x.actions ∧ (g x).stop = x.stop) :
    ∀ (captured : List Rule) (e : HTTPExchange) (acc acc' : List Rule),
    (execLoop mode false (captured.map g) e acc).map Prod.fst
      = (execLoop mode false captured e acc').map Prod.fst := by
  intro captured
  induction captured with
  | nil => intro e acc acc'; rfl
  | cons r rest ih =>
    intro e acc acc'
    rw [List.map_cons, execLoop_cons, execLoop_cons, (hg r).1, (hg r).2]
    cases ha : Actions._execute r.actions mode e with
    | error err => simp [ha, Except.map]
    | ok e'' =>
      by_cases hrs : r.stop
      · simp [ha, hrs, Except.map]
      · simp only [ha, hrs, Bool.false_eq_true, if_false, if_true]
        exact ih e'' (acc ++ [g r]) (acc' ++ [r])

lemma execLoop_notest_stop_tail_irrelevant (mode : Mode) (r : Rule)
    (hstop : r.stop = true) :
    ∀ (pre : List Rule) (post post' : List Rule) (e : HTTPExchange) (acc : List Rule),
    execLoop mode false (pre ++ r :: post) e acc
      = execLoop mode false (pre ++ r :: post') e acc := by
  intro pre
  induction pre with
  | nil =>
    intro post post' e acc
    rw [List.nil_append, List.nil_append, execLoop_cons, execLoop_cons]
    cases ha : Actions._execute r.actions mode e <;> simp [ha, hstop]
  | cons p pre' ih =>
    intro post post' e acc
    rw [List.cons_append, List.cons_append, execLoop_cons, execLoop_cons]
    cases ha : Actions._execute p.actions mode e with
    | error err => simp [ha]
    | ok e'' =>
      by_cases hps : p.stop
      · simp [ha, hps]
      · simp only [ha, hps, Bool.false_eq_true, if_false, if_true]
        exact ih post post' e'' (acc ++ [p])

/-- Claim C6: on an exchange whose input phase has already run
(`matched_rules` is set), the phase run (i) never consults the global
ruleset, (ii) executes the captured rules' actions for the phase exactly,
in capture order, returning the captured list unchanged (whenever `stop`
can only sit on the last captured rule, which is what an input run
produces), (iii) never re-evaluates any rule's criteria (replacing every
captured rule's criteria arbitrarily leaves the resulting exchange
unchanged), and (iv) honours `stop` identically to the input phase. -/
theorem C6_output_reuses_matched_rules (rules rules' : List Rule)
    (captured pre post post' : List Rule) (r : Rule) (g : Rule → Rule)
    (mode : Mode) (e : HTTPExchange)
    (hcap : ∀ x ∈ captured.dropLast, x.stop = false)
    (hg : ∀ x, (g x).actions = x.actions ∧ (g x).stop = x.stop)
    (hstop : r.stop = true) :
    Rules._execute rules mode e (some captured)
      = Rules._execute rules' mode e (some captured)
    ∧ Rules._execute rules mode e (some captured)
      = (apply_matched mode captured e).map (fun e' => (e', captured))
    ∧ (Rules._execute rules mode e (some (captured.map g))).map Prod.fst
      = (Rules._execute rules mode e (some captured)).map Prod.fst
    ∧ Rules._execute rules mode e (some (pre ++ r :: post))
      = Rules._execute rules mode e (some (pre ++ r :: post')) := by
  refine ⟨rfl, ?_, ?_, ?_⟩
  · have h := execLoop_notest_apply_matched mode captured e [] hcap
    simpa using h
  · exact execLoop_notest_criteria_irrelevant mode g hg captured e [] []
  · exact execLoop_notest_stop_tail_irrelevant mode r hstop pre post post' e []

theorem C6_output_reuses_matched_rules_witness :
    Rules._execute [rule_other] Mode.output ex0 (some [rule_go])
      = Rules._execute [] Mode.output ex0 (some [rule_go])
    ∧ Rules._execute [rule_other] Mode.output ex0 (some [rule_go])
      = (apply_matched Mode.output [rule_go] ex0).map (fun e' => (e', [rule_go]))
    ∧ (Rules._execute [rule_other] Mode.output ex0 (some ([rule_go].map id))).map Prod.fst
      = (Rules._execute [rule_other] Mode.output ex0 (some [rule_go])).map Prod.fst
    ∧ Rules._execute [rule_other] Mode.output ex0 (some ([] ++ rule_stop :: [rule_go]))
      = Rules._execute [rule_other] Mode.output ex0 (some ([] ++ rule_stop :: [])) :=
  C6_output_reuses_matched_rules [rule_other] [] [rule_go] [] [rule_go] [] rule_stop id
    Mode.output ex0 (by intro x hx; simp [List.dropLast] at hx)
    (fun x => ⟨rfl, rfl⟩) rfl

/-! ## Claims about Actions: definition-time versus execution-time errors -/

lemma resolveLoop_cons (acts : Actions) (an : ActionName) (rest : List ActionName)
    (e : HTTPExchange) (rd futs : PyDict) :
    resolveLoop acts (an :: rest) e rd futs
      = (if (pyGet acts an).truthy = false then resolveLoop acts rest e rd futs
         else
           match pyGet acts an with
           | .callable f =>
             match f e with
             | (e', PyVal.future done r) =>
               if done then resolveLoop acts rest e' (dictInsert rd an r) futs
               else resolveLoop acts rest e' rd (dictInsert futs an r)
             | (e', v) => resolveLoop acts rest e' (dictInsert rd an v) futs
           | .py v =>
             if is_custom_action_name an then
               .error (PyError.exn "custom_ actions must be callable")
             else resolveLoop acts rest e (dictInsert rd an v) futs) := rfl

lemma resolveLoop_bad_custom_error (acts : Actions) :
    ∀ (names : List ActionName) (e : HTTPExchange) (rd futs : PyDict),
    (∃ an ∈ names, is_custom_action_name an = true
        ∧ ∃ v, pyGet acts an = ActionVal.py v ∧ v.truthy = true) →
    resolveLoop acts names e rd futs
      = .error (PyError.exn "custom_ actions must be callable") := by
  intro names
  induction names with
  | nil =>
    intro e rd futs h
    obtain ⟨an, han, _⟩ := h
    simp at han
  | cons x rest ih =>
    intro e rd futs h
    obtain ⟨an, han, hcust, v, hv, htr⟩ := h
    rw [List.mem_cons] at han
    rw [resolveLoop_cons]
    cases hpg : pyGet acts x with
    | py w =>
      by_cases hw : w.truthy = false
      · have hmem : an ∈ rest := by
          rcases han with rfl | hmem
          · exfalso
            rw [hv] at hpg
            injection hpg with hvw
            subst hvw
            simp [htr] at hw
          · exact hmem
        simp only [ActionVal.truthy, hw, if_true]
        exact ih e rd futs ⟨an, hmem, hcust, v, hv, htr⟩
      · have hwt : w.truthy = true := by revert hw; cases w.truthy <;> simp
        by_cases hcx : is_custom_action_name x
        · simp [ActionVal.truthy, hwt, hcx]
        · have hmem : an ∈ rest := by
            rcases han with rfl | hmem
            · exact absurd hcust (by simp [hcx])
            · exact hmem
          simp only [ActionVal.truthy, hwt, Bool.true_eq_false, if_false, hcx,
            Bool.false_eq_true]
          exact ih e (dictInsert rd x w) futs ⟨an, hmem, hcust, v, hv, htr⟩
    | callable f =>
      have hmem : an ∈ rest := by
        rcases han with rfl | hmem
        · rw [hv] at hpg
          exact ActionVal.noConfusion hpg
        · exact hmem
      rcases hfe : f e with ⟨e', val⟩
      cases val with
      | future done r =>
        cases done with
        | true =>
          simp only [ActionVal.truthy, Bool.true_eq_false, if_false, hfe, if_true]
          exact ih e' (dictInsert rd x r) futs ⟨an, hmem, hcust, v, hv, htr⟩
        | false =>
          simp only [ActionVal.truthy, Bool.true_eq_false, if_false, hfe,
            Bool.false_eq_true]
          exact ih e' rd (dictInsert futs x r) ⟨an, hmem, hcust, v, hv, htr⟩
      | none =>
        simp only [ActionVal.truthy, Bool.true_eq_false, if_false, hfe]
        exact ih e' (dictInsert rd x PyVal.none) futs ⟨an, hmem, hcust, v, hv, htr⟩
      | bool b =>
        simp only [ActionVal.truthy, Bool.true_eq_false, if_false, hfe]
        exact ih e' (dictInsert rd x (PyVal.bool b)) futs ⟨an, hmem, hcust, v, hv, htr⟩
      | int n =>
        simp only [ActionVal.truthy, Bool.true_eq_false, if_false, hfe]
        exact ih e' (dictInsert rd x (PyVal.int n)) futs ⟨an, hmem, hcust, v, hv, htr⟩
      | str sv =>
        simp only [ActionVal.truthy, Bool.true_eq_false, if_false, hfe]
        exact ih e' (dictInsert rd x (PyVal.str sv)) futs ⟨an, hmem, hcust, v, hv, htr⟩

def bad_custom_kwargs : ActionName → Option ActionVal :=
  fun an => if an = ActionName.custom_input
            then some (ActionVal.py (PyVal.str "not-callable")) else Option.none

/-- Claim C7 counterexample: an `Actions` carrying a non-callable (truthy)
value for `custom_input` is constructed without any error —
`Actions.__init__` validates nothing — and the
"custom_ actions must be callable" error is raised only when the input
phase is executed against a request. -/
theorem C7_counterexample :
    Actions.init bad_custom_kwargs = .ok ⟨bad_custom_kwargs⟩
    ∧ Actions._execute ⟨bad_custom_kwargs⟩ Mode.input ex0
      = .error (PyError.exn "custom_ actions must be callable") := ⟨rfl, rfl⟩

/-- Claim C7 amended: supplying a truthy non-callable value for
`custom_input` or `custom_output` raises no error at `Actions` construction
time; the "custom_ actions must be callable" error is raised when the
corresponding phase is executed. -/
theorem C7_amended_error_at_execution (kwargs : ActionName → Option ActionVal)
    (mode : Mode) (e : HTTPExchange) (v : PyVal)
    (hv : pyGet ⟨kwargs⟩ (custom_name_for mode) = ActionVal.py v)
    (ht : v.truthy = true) :
    Actions.init kwargs = .ok ⟨kwargs⟩
    ∧ Actions._execute ⟨kwargs⟩ mode e
      = .error (PyError.exn "custom_ actions must be callable") := by
  refine ⟨rfl, ?_⟩
  have hmem : custom_name_for mode ∈ action_names_for mode := by
    cases mode <;> decide
  have hcust : is_custom_action_name (custom_name_for mode) = true := by
    cases mode <;> decide
  have hres := resolveLoop_bad_custom_error ⟨kwargs⟩ (action_names_for mode) e
      (fun _ => Option.none) (fun _ => Option.none)
      ⟨custom_name_for mode, hmem, hcust, v, hv, ht⟩
  unfold Actions._execute
  rw [hres]

def bad_custom_kwargs_out : ActionName → Option ActionVal :=
  fun an => if an = ActionName.custom_output
            then some (ActionVal.py (PyVal.str "oops")) else Option.none

theorem C7_amended_error_at_execution_witness :
    Actions.init bad_custom_kwargs_out = .ok ⟨bad_custom_kwargs_out⟩
    ∧ Actions._execute ⟨bad_custom_kwargs_out⟩ Mode.output ex0
      = .error (PyError.exn "custom_ actions must be callable") :=
  C7_amended_error_at_execution bad_custom_kwargs_out Mode.output ex0
    (PyVal.str "oops") rfl rfl

/-! ## Claim C8: falsy non-None action values raise KeyError at execution -/

/-- The condition under which the mutation loop's dictionary lookup cannot
find a recognised name: its action value is a non-callable falsy value
other than `None` (for example `0`, `False`, or the empty string). -/
def falsy_non_none (acts : Actions) (x : ActionName) : Bool :=
  match pyGet acts x with
  | .py v => !v.truthy && !(decide (v = PyVal.none))
  | .callable _ => false

lemma mutateLoop_cons (acts : Actions) (an : ActionName) (rest : List ActionName)
    (rd : PyDict) (e : HTTPExchange) :
    mutateLoop acts (an :: rest) rd e
      = (if (pyGet acts an).isNoneVal then mutateLoop acts rest rd e
         else if is_custom_action_name an then mutateLoop acts rest rd e
         else
           match rd an with
           | Option.none => .error (PyError.keyError (actionNameStr an))
           | some v =>
             if v = PyVal.none then mutateLoop acts rest rd e
             else mutateLoop acts rest rd (applySetter an v e)) := rfl

lemma dictInsert_ne (d : PyDict) (k x : ActionName) (v : PyVal) (h : x ≠ k) :
    dictInsert d k v x = d x := by
  simp [dictInsert, h]

lemma dictInsert_isSome (d : PyDict) (k x : ActionName) (v : PyVal)
    (h : (d x).isSome = true) : ((dictInsert d k v) x).isSome = true := by
  by_cases hxk : x = k <;> simp [dictInsert, hxk, h]

lemma resolveLoop_cons_py (acts : Actions) (an : ActionName) (rest : List ActionName)
    (e : HTTPExchange) (rd futs : PyDict) (w : PyVal)
    (hpg : pyGet acts an = ActionVal.py w) :
    resolveLoop acts (an :: rest) e rd futs
      = (if w.truthy = false then resolveLoop acts rest e rd futs
         else if is_custom_action_name an then
           .error (PyError.exn "custom_ actions must be callable")
         else resolveLoop acts rest e (dictInsert rd an w) futs) := by
  rw [resolveLoop_cons, hpg]
  rfl

lemma resolveLoop_cons_callable_done (acts : Actions) (an : ActionName)
    (rest : List ActionName) (e e' : HTTPExchange) (rd futs : PyDict)
    (f : HTTPExchange → HTTPExchange × PyVal) (r : PyVal)
    (hpg : pyGet acts an = ActionVal.callable f)
    (hfe : f e = (e', PyVal.future true r)) :
    resolveLoop acts (an :: rest) e rd futs
      = resolveLoop acts rest e' (dictInsert rd an r) futs := by
  rw [resolveLoop_cons, hpg]
  show (match f e with
        | (e1, PyVal.future d r1) =>
          if d then resolveLoop acts rest e1 (dictInsert rd an r1) futs
          else resolveLoop acts rest e1 rd (dictInsert futs an r1)
        | (e1, v) => resolveLoop acts rest e1 (dictInsert rd an v) futs) = _
  rw [hfe]
  rfl

lemma resolveLoop_cons_callable_pending (acts : Actions) (an : ActionName)
    (rest : List ActionName) (e e' : HTTPExchange) (rd futs : PyDict)
    (f : HTTPExchange → HTTPExchange × PyVal) (r : PyVal)
    (hpg : pyGet acts an = ActionVal.callable f)
    (hfe : f e = (e', PyVal.future false r)) :
    resolveLoop acts (an :: rest) e rd futs
      = resolveLoop acts rest e' rd (dictInsert futs an r) := by
  rw [resolveLoop_cons, hpg]
  show (match f e with
        | (e1, PyVal.future d r1) =>
          if d then resolveLoop acts rest e1 (dictInsert rd an r1) futs
          else resolveLoop acts rest e1 rd (dictInsert futs an r1)
        | (e1, v) => resolveLoop acts rest e1 (dictInsert rd an v) futs) = _
  rw [hfe]
  rfl

lemma resolveLoop_cons_callable_plain (acts : Actions) (an : ActionName)
    (rest : List ActionName) (e e' : HTTPExchange) (rd futs : PyDict)
    (f : HTTPExchange → HTTPExchange × PyVal) (val : PyVal)
    (hpg : pyGet acts an = ActionVal.callable f) (hfe : f e = (e', val))
    (hnf : ∀ d r, val ≠ PyVal.future d r) :
    resolveLoop acts (an :: rest) e rd futs
      = resolveLoop acts rest e' (dictInsert rd an val) futs := by
  rw [resolveLoop_cons, hpg]
  show (match f e with
        | (e1, PyVal.future d r1) =>
          if d then resolveLoop acts rest e1 (dictInsert rd an r1) futs
          else resolveLoop acts rest e1 rd (dictInsert futs an r1)
        | (e1, v) => resolveLoop acts rest e1 (dictInsert rd an v) futs) = _
  rw [hfe]
  cases val with
  | future d r => exact absurd rfl (hnf d r)
  | none => rfl
  | bool b => rfl
  | int n => rfl
  | str sv => rfl

lemma resolveLoop_falsy_not_inserted (acts : Actions) :
    ∀ (names : List ActionName) (e : HTTPExchange) (rd futs : PyDict)
      (out : HTTPExchange × PyDict × PyDict) (x : ActionName),
    resolveLoop acts names e rd futs = .ok out →
    (pyGet acts x).truthy = false →
    rd x = Option.none → futs x = Option.none →
    out.2.1 x = Option.none ∧ out.2.2 x = Option.none := by
  intro names
  induction names with
  | nil =>
    intro e rd futs out x hres hx hrd hf
    simp only [resolveLoop, Except.ok.injEq] at hres
    subst hres
    exact ⟨hrd, hf⟩
  | cons a rest ih =>
    intro e rd futs out x hres hx hrd hf
    cases hpg : pyGet acts a with
    | py w =>
      rw [resolveLoop_cons_py acts a rest e rd futs w hpg] at hres
      by_cases hw : w.truthy = false
      · rw [if_pos hw] at hres
        exact ih e rd futs out x hres hx hrd hf
      · rw [if_neg hw] at hres
        have hwt : w.truthy = true := by revert hw; cases w.truthy <;> simp
        have hax : x ≠ a := by
          intro hxa
          subst hxa
          rw [hpg] at hx
          simp [ActionVal.truthy, hwt] at hx
        by_cases hca : is_custom_action_name a
        · rw [if_pos hca] at hres
          cases hres
        · rw [if_neg hca] at hres
          exact ih e (dictInsert rd a w) futs out x hres hx
            (by rw [dictInsert_ne rd a x w hax]; exact hrd) hf
    | callable f =>
      have hax : x ≠ a := by
        intro hxa
        subst hxa
        rw [hpg] at hx
        simp [ActionVal.truthy] at hx
      rcases hfe : f e with ⟨e', val⟩
      cases val
      case future done r =>
        cases done
        case true =>
          rw [resolveLoop_cons_callable_done acts a rest e e' rd futs f r hpg hfe] at hres
          exact ih e' (dictInsert rd a r) futs out x hres hx
            (by rw [dictInsert_ne rd a x r hax]; exact hrd) hf
        case false =>
          rw [resolveLoop_cons_callable_pending acts a rest e e' rd futs f r hpg hfe] at hres
          exact ih e' rd (dictInsert futs a r) out x hres hx hrd
            (by rw [dictInsert_ne futs a x r hax]; exact hf)
      all_goals
        rw [resolveLoop_cons_callable_plain acts a rest e e' rd futs f _ hpg hfe
          (by intro d r h; cases h)] at hres
        exact ih e' (dictInsert rd a _) futs out x hres hx
          (by rw [dictInsert_ne rd a x _ hax]; exact hrd) hf

lemma resolveLoop_some_preserved (acts : Actions) :
    ∀ (names : List ActionName) (e : HTTPExchange) (rd futs : PyDict)
      (out : HTTPExchange × PyDict × PyDict) (x : ActionName),
    resolveLoop acts names e rd futs = .ok out →
    ((rd x).isSome = true ∨ (futs x).isSome = true) →
    ((out.2.1 x).isSome = true ∨ (out.2.2 x).isSome = true) := by
  intro names
  induction names with
  | nil =>
    intro e rd futs out x hres hin
    simp only [resolveLoop, Except.ok.injEq] at hres
    subst hres
    exact hin
  | cons a rest ih =>
    intro e rd futs out x hres hin
    cases hpg : pyGet acts a with
    | py w =>
      rw [resolveLoop_cons_py acts a rest e rd futs w hpg] at hres
      by_cases hw : w.truthy = false
      · rw [if_pos hw] at hres
        exact ih e rd futs out x hres hin
      · rw [if_neg hw] at hres
        by_cases hca : is_custom_action_name a
        · rw [if_pos hca] at hres
          cases hres
        · rw [if_neg hca] at hres
          refine ih e (dictInsert rd a w) futs out x hres ?_
          rcases hin with h1 | h2
          · exact Or.inl (dictInsert_isSome rd a x w h1)
          · exact Or.inr h2
    | callable f =>
      rcases hfe : f e with ⟨e', val⟩
      cases val
      case future done r =>
        cases done
        case true =>
          rw [resolveLoop_cons_callable_done acts a rest e e' rd futs f r hpg hfe] at hres
          refine ih e' (dictInsert rd a r) futs out x hres ?_
          rcases hin with h1 | h2
          · exact Or.inl (dictInsert_isSome rd a x r h1)
          · exact Or.inr h2
        case false =>
          rw [resolveLoop_cons_callable_pending acts a rest e e' rd futs f r hpg hfe] at hres
          refine ih e' rd (dictInsert futs a r) out x hres ?_
          rcases hin with h1 | h2
          · exact Or.inl h1
          · exact Or.inr (dictInsert_isSome futs a x r h2)
      all_goals
        rw [resolveLoop_cons_callable_plain acts a rest e e' rd futs f _ hpg hfe
          (by intro d r h; cases h)] at hres
        refine ih e' (dictInsert rd a _) futs out x hres ?_
        rcases hin with h1 | h2
        · exact Or.inl (dictInsert_isSome rd a x _ h1)
        · exact Or.inr h2

lemma resolveLoop_truthy_inserted (acts : Actions) :
    ∀ (names : List ActionName) (e : HTTPExchange) (rd futs : PyDict)
      (out : HTTPExchange × PyDict × PyDict) (x : ActionName),
    resolveLoop acts names e rd futs = .ok out →
    x ∈ names → (pyGet acts x).truthy = true →
    ((out.2.1 x).isSome = true ∨ (out.2.2 x).isSome = true) := by
  intro names
  induction names with
  | nil =>
    intro e rd futs out x hres hmem
    simp at hmem
  | cons a rest ih =>
    intro e rd futs out x hres hmem hxt
    rw [List.mem_cons] at hmem
    cases hpg : pyGet acts a with
    | py w =>
      rw [resolveLoop_cons_py acts a rest e rd futs w hpg] at hres
      by_cases hw : w.truthy = false
      · rw [if_pos hw] at hres
        rcases hmem with rfl | hmem
        · rw [hpg] at hxt
          simp only [ActionVal.truthy] at hxt
          rw [hxt] at hw
          cases hw
        · exact ih e rd futs out x hres hmem hxt
      · rw [if_neg hw] at hres
        by_cases hca : is_custom_action_name a
        · rw [if_pos hca] at hres
          cases hres
        · rw [if_neg hca] at hres
          rcases hmem with rfl | hmem
          · refine resolveLoop_some_preserved acts rest e (dictInsert rd x w) futs out x hres ?_
            exact Or.inl (by simp [dictInsert])
          · exact ih e (dictInsert rd a w) futs out x hres hmem hxt
    | callable f =>
      rcases hfe : f e with ⟨e', val⟩
      cases val
      case future done r =>
        cases done
        case true =>
          rw [resolveLoop_cons_callable_done acts a rest e e' rd futs f r hpg hfe] at hres
          rcases hmem with rfl | hmem
          · refine resolveLoop_some_preserved acts rest e' (dictInsert rd x r) futs out x hres ?_
            exact Or.inl (by simp [dictInsert])
          · exact ih e' (dictInsert rd a r) futs out x hres hmem hxt
        case false =>
          rw [resolveLoop_cons_callable_pending acts a rest e e' rd futs f r hpg hfe] at hres
          rcases hmem with rfl | hmem
          · refine resolveLoop_some_preserved acts rest e' rd (dictInsert futs x r) out x hres ?_
            exact Or.inr (by simp [dictInsert])
          · exact ih e' rd (dictInsert futs a r) out x hres hmem hxt
      all_goals
        rw [resolveLoop_cons_callable_plain acts a rest e e' rd futs f _ hpg hfe
          (by intro d r h; cases h)] at hres
        rcases hmem with rfl | hmem
        · refine resolveLoop_some_preserved acts rest e' (dictInsert rd x _) futs out x hres ?_
          exact Or.inl (by simp [dictInsert])
        · exact ih e' (dictInsert rd a _) futs out x hres hmem hxt

lemma resolveLoop_ok_of_safe_customs (acts : Actions) :
    ∀ (names : List ActionName) (e : HTTPExchange) (rd futs : PyDict),
    (∀ x ∈ names, is_custom_action_name x = true →
        ∀ v, pyGet acts x = ActionVal.py v → v.truthy = false) →
    ∃ out, resolveLoop acts names e rd futs = .ok out := by
  intro names
  induction names with
  | nil =>
    intro e rd futs h
    exact ⟨(e, rd, futs), rfl⟩
  | cons a rest ih =>
    intro e rd futs h
    have hrest : ∀ x ∈ rest, is_custom_action_name x = true →
        ∀ v, pyGet acts x = ActionVal.py v → v.truthy = false :=
      fun x hx => h x (List.mem_cons_of_mem _ hx)
    cases hpg : pyGet acts a with
    | py w =>
      rw [resolveLoop_cons_py acts a rest e rd futs w hpg]
      by_cases hw : w.truthy = false
      · rw [if_pos hw]
        exact ih e rd futs hrest
      · rw [if_neg hw]
        have hca : is_custom_action_name a = false := by
          by_cases hca : is_custom_action_name a
          · exact absurd (h a (List.mem_cons_self _ _) hca w hpg) hw
          · revert hca; cases is_custom_action_name a <;> simp
        rw [if_neg (by rw [hca]; exact Bool.false_ne_true)]
        exact ih e (dictInsert rd a w) futs hrest
    | callable f =>
      rcases hfe : f e with ⟨e', val⟩
      cases val
      case future done r =>
        cases done
        case true =>
          rw [resolveLoop_cons_callable_done acts a rest e e' rd futs f r hpg hfe]
          exact ih e' (dictInsert rd a r) futs hrest
        case false =>
          rw [resolveLoop_cons_callable_pending acts a rest e e' rd futs f r hpg hfe]
          exact ih e' rd (dictInsert futs a r) hrest
      all_goals
        rw [resolveLoop_cons_callable_plain acts a rest e e' rd futs f _ hpg hfe
          (by intro d r hne; cases hne)]
        exact ih e' (dictInsert rd a _) futs hrest

lemma mutateLoop_first_keyerror (acts : Actions) :
    ∀ (names : List ActionName) (rd : PyDict) (e : HTTPExchange) (an0 : ActionName),
    names.find? (fun x => !(is_custom_action_name x) && falsy_non_none acts x) = some an0 →
    (∀ x, (pyGet acts x).truthy = false → rd x = Option.none) →
    (∀ x ∈ names, (pyGet acts x).truthy = true → (rd x).isSome = true) →
    mutateLoop acts names rd e = .error (PyError.keyError (actionNameStr an0)) := by
  intro names
  induction names with
  | nil =>
    intro rd e an0 hfind hfl htr
    simp at hfind
  | cons a rest ih =>
    intro rd e an0 hfind hfl htr
    have htr' : ∀ x ∈ rest, (pyGet acts x).truthy = true → (rd x).isSome = true :=
      fun x hx => htr x (List.mem_cons_of_mem _ hx)
    by_cases hpa : (!(is_custom_action_name a) && falsy_non_none acts a) = true
    · have hstep : List.find?
          (fun x => !(is_custom_action_name x) && falsy_non_none acts x) (a :: rest)
          = some a := List.find?_cons_of_pos _ hpa
      rw [hstep] at hfind
      injection hfind with h0
      subst h0
      obtain ⟨hnc, hfnn⟩ := Bool.and_eq_true_iff.mp hpa
      have hnc' : is_custom_action_name a = false := by
        revert hnc
        cases is_custom_action_name a <;> simp
      cases hpg : pyGet acts a with
      | callable f =>
        exfalso
        rw [show falsy_non_none acts a
              = match pyGet acts a with
                | .py v => !v.truthy && !(decide (v = PyVal.none))
                | .callable _ => false from rfl, hpg] at hfnn
        cases hfnn
      | py v =>
        rw [show falsy_non_none acts a
              = match pyGet acts a with
                | .py v => !v.truthy && !(decide (v = PyVal.none))
                | .callable _ => false from rfl, hpg] at hfnn
        simp only [Bool.and_eq_true, Bool.not_eq_true', decide_eq_false_iff_not] at hfnn
        obtain ⟨hvf, hvn⟩ := hfnn
        have hrdnone : rd a = Option.none := by
          refine hfl a ?_
          rw [hpg]
          simpa [ActionVal.truthy] using hvf
        have hnn : (ActionVal.py v).isNoneVal = false := by
          cases v
          · exact absurd rfl hvn
          all_goals rfl
        rw [mutateLoop_cons, hpg, hnn, hnc']
        simp [hrdnone]
    · have hstep : List.find?
          (fun x => !(is_custom_action_name x) && falsy_non_none acts x) (a :: rest)
          = List.find? (fun x => !(is_custom_action_name x) && falsy_non_none acts x) rest :=
        List.find?_cons_of_neg _ hpa
      rw [hstep] at hfind
      rw [mutateLoop_cons]
      cases hpg : pyGet acts a with
      | py v =>
        by_cases hvnone : v = PyVal.none
        · subst hvnone
          rw [show (ActionVal.py PyVal.none).isNoneVal = true from rfl]
          simp only [if_true]
          exact ih rd e an0 hfind hfl htr'
        · have hnn : (ActionVal.py v).isNoneVal = false := by
            cases v
            · exact absurd rfl hvnone
            all_goals rfl
          rw [hnn]
          simp only [Bool.false_eq_true, if_false]
          by_cases hca : is_custom_action_name a
          · rw [if_pos hca]
            exact ih rd e an0 hfind hfl htr'
          · rw [if_neg hca]
            have hca' : is_custom_action_name a = false := by
              revert hca
              cases is_custom_action_name a <;> simp
            have hfa : falsy_non_none acts a = false := by
              revert hpa
              cases hfin : falsy_non_none acts a <;> simp [hca', hfin]
            have hvt : v.truthy = true := by
              rw [show falsy_non_none acts a
                    = match pyGet acts a with
                      | .py w => !w.truthy && !(decide (w = PyVal.none))
                      | .callable _ => false from rfl, hpg] at hfa
              simp only [Bool.and_eq_false_iff, Bool.not_eq_false',
                decide_eq_true_eq] at hfa
              rcases hfa with h1 | h2
              · exact h1
              · exact absurd h2 hvnone
            have hsome : (rd a).isSome = true := by
              refine htr a (List.mem_cons_self _ _) ?_
              rw [hpg]
              simpa [ActionVal.truthy] using hvt
            obtain ⟨w, hw⟩ := Option.isSome_iff_exists.mp hsome
            rw [hw]
            show (if w = PyVal.none then mutateLoop acts rest rd e
                  else mutateLoop acts rest rd (applySetter a w e))
              = Except.error (PyError.keyError (actionNameStr an0))
            by_cases hwn : w = PyVal.none
            · rw [if_pos hwn]
              exact ih rd e an0 hfind hfl htr'
            · rw [if_neg hwn]
              exact ih rd (applySetter a w e) an0 hfind hfl htr'
      | callable f =>
        rw [show (ActionVal.callable f).isNoneVal = false from rfl]
        simp only [Bool.false_eq_true, if_false]
        by_cases hca : is_custom_action_name a
        · rw [if_pos hca]
          exact ih rd e an0 hfind hfl htr'
        · rw [if_neg hca]
          have hsome : (rd a).isSome = true := by
            refine htr a (List.mem_cons_self _ _) ?_
            rw [hpg]
            rfl
          obtain ⟨w, hw⟩ := Option.isSome_iff_exists.mp hsome
          rw [hw]
          show (if w = PyVal.none then mutateLoop acts rest rd e
                else mutateLoop acts rest rd (applySetter a w e))
            = Except.error (PyError.keyError (actionNameStr an0))
          by_cases hwn : w = PyVal.none
          · rw [if_pos hwn]
            exact ih rd e an0 hfind hfl htr'
          · rw [if_neg hwn]
            exact ih rd (applySetter a w e) an0 hfind hfl htr'

/-- Claim C8: an `Actions` set that maps a recognised non-custom action name
to a falsy value other than `None` (for example `0`, `False`, or `""`) makes
the execution of that name's phase raise `KeyError`: the value-resolution
loop skips every falsy action value, while the mutation loop skips only
`None` and then looks the name up in the result dictionary.  The raised
`KeyError` names the first such action name in catalog order (`an0`); the
side condition `hsafe` rules out a truthy non-callable custom value in the
same phase, which would raise the custom-action error first. -/
theorem C8_falsy_value_keyerror (kwargs : ActionName → Option ActionVal)
    (mode : Mode) (e : HTTPExchange) (an0 : ActionName)
    (hfind : (action_names_for mode).find?
        (fun x => !(is_custom_action_name x) && falsy_non_none ⟨kwargs⟩ x) = some an0)
    (hsafe : ∀ v, pyGet ⟨kwargs⟩ (custom_name_for mode) = ActionVal.py v →
        v.truthy = false) :
    Actions._execute ⟨kwargs⟩ mode e
      = .error (PyError.keyError (actionNameStr an0)) := by
  have hcustsafe : ∀ x ∈ action_names_for mode, is_custom_action_name x = true →
      ∀ v, pyGet ⟨kwargs⟩ x = ActionVal.py v → v.truthy = false := by
    intro x hx hcx
    have hxeq : x = custom_name_for mode := by
      revert hx hcx
      cases mode <;> cases x <;> decide
    rw [hxeq]
    exact hsafe
  obtain ⟨out, hres⟩ := resolveLoop_ok_of_safe_customs ⟨kwargs⟩ (action_names_for mode) e
      (fun _ => Option.none) (fun _ => Option.none) hcustsafe
  obtain ⟨e', rd, futs⟩ := out
  unfold Actions._execute
  rw [hres]
  refine mutateLoop_first_keyerror ⟨kwargs⟩ (action_names_for mode)
      (dictMerge rd futs) e' an0 hfind ?_ ?_
  · intro x hx
    have hn := resolveLoop_falsy_not_inserted ⟨kwargs⟩ (action_names_for mode) e
      (fun _ => Option.none) (fun _ => Option.none) (e', rd, futs) x hres hx rfl rfl
    have h1 : rd x = Option.none := hn.1
    have h2 : futs x = Option.none := hn.2
    simp [dictMerge, h1, h2]
  · intro x hxm hxt
    have hs := resolveLoop_truthy_inserted ⟨kwargs⟩ (action_names_for mode) e
      (fun _ => Option.none) (fun _ => Option.none) (e', rd, futs) x hres hxm hxt
    rcases hs with h1 | h2
    · have h1' : (rd x).isSome = true := h1
      cases hfu : futs x with
      | none => simpa [dictMerge, hfu] using h1'
      | some w => simp [dictMerge, hfu]
    · have h2' : (futs x).isSome = true := h2
      obtain ⟨w, hw⟩ := Option.isSome_iff_exists.mp h2'
      simp [dictMerge, hw]

def c8_kwargs : ActionName → Option ActionVal :=
  fun an => if an = ActionName.set_status_code
            then some (ActionVal.py (PyVal.int 0)) else Option.none

theorem C8_falsy_value_keyerror_witness :
    Actions._execute ⟨c8_kwargs⟩ Mode.input ex0
      = .error (PyError.keyError (actionNameStr ActionName.set_status_code)) :=
  C8_falsy_value_keyerror c8_kwargs Mode.input ex0 ActionName.set_status_code
    (by decide)
    (fun v hv => by cases ActionVal.py.inj hv; rfl)
